import Mathlib

set_option maxRecDepth 4000

/-!
Verification of the process-table classification and suppression engine
(`src/main.rs`).  The Rust source is shallowly embedded: the external
`/proc` reads (`get_uid`, `get_oom_score`, `get_cmdline`) become an
environment of `Int → Option _` functions, the hash table of 128 buckets
becomes a `List (List ProcessNode)` indexed by `pid % 128`, and each core
function (`create_node`, `recheck_pending_node`, `update`,
`query_and_kill`) is translated clause by clause.
-/

namespace MemCleaner

/-- `const STABILITY_THRESHOLD: u8 = 6` -/
def STABILITY_THRESHOLD : Nat := 6

/-- `const HASH_SIZE: usize = 128` -/
def HASH_SIZE : Nat := 128

/-- `enum NodeStatus { Pending, Monitored, Ignored }`.
`Pending` is the spec's `Ambiguous`, `Monitored` is `Reclaimable`,
`Ignored` is `Inert`. -/
inductive NodeStatus
  | Pending
  | Monitored
  | Ignored
deriving DecidableEq, Repr

/-- `struct ProcessNode` (pid is an `i32`, uid a `u32`, oom_score an `i32`;
no arithmetic is ever performed on them, so `Int`/`Nat` model them exactly;
`retry_counter` is a `u8` that the code only increments while it is below
`STABILITY_THRESHOLD = 6`, so it never wraps and `Nat` models it exactly). -/
structure ProcessNode where
  pid : Int
  uid : Nat
  process_name : String
  oom_score : Int
  status : NodeStatus
  retry_counter : Nat
  is_alive : Bool
deriving DecidableEq, Repr

/-- The external `/proc` reads `get_uid`, `get_oom_score`, `get_cmdline`:
each returns `none` on a failed read, mirroring the `Option` results of
the Rust helpers.  One fixed `Env` models one update cycle during which
each read of a given pid yields the same result. -/
structure Env where
  uid : Int → Option Nat
  oom : Int → Option Int
  cmdline : Int → Option String

/-- Rust `cmdline.contains(':')`: the worker-delimiter test, i.e. the
character `:` occurs somewhere in the name (expressed on the underlying
character list). -/
def hasDelim (s : String) : Bool := s.data.contains ':'

/-- `fn hash(pid: i32) -> usize { (pid as usize) % HASH_SIZE }`.
For a negative `i32` the cast adds `2^64`, which is divisible by 128, so
the result is the mathematical `pid mod 128` in every case, which is what
`Int.emod` computes. -/
def hashPid (pid : Int) : Nat := (pid % 128).toNat

/-- `struct ProcessTable { buckets: [Vec<ProcessNode>; HASH_SIZE] }` -/
structure ProcessTable where
  buckets : List (List ProcessNode)
deriving DecidableEq, Repr

/-- `ProcessTable::new()` -/
def ProcessTable.new : ProcessTable := ⟨List.replicate HASH_SIZE []⟩

/-- `fn create_node(pid, whitelist) -> Option<ProcessNode>`.
The whitelist (`HashSet<String>` in the source) is modelled as a list of
rules tested by exact membership, exactly as `HashSet::contains` does. -/
def create_node (env : Env) (whitelist : List String) (pid : Int) :
    Option ProcessNode :=
  match env.uid pid with
  | none => none
  | some uid =>
    if uid < 10000 then
      some { pid := pid, uid := uid, process_name := "", oom_score := -1000,
             status := .Ignored, retry_counter := 0, is_alive := true }
    else
      let cmdline := (env.cmdline pid).getD ""
      let oom := (env.oom pid).getD 0
      let sn : NodeStatus × String :=
        if hasDelim cmdline then
          if whitelist.contains cmdline then (.Ignored, cmdline)
          else (.Monitored, cmdline)
        else (.Pending, cmdline)
      some { pid := pid, uid := uid, process_name := sn.2, oom_score := oom,
             status := sn.1, retry_counter := 0, is_alive := true }

/-- `fn recheck_pending_node(node, whitelist)` -/
def recheck_pending_node (env : Env) (whitelist : List String)
    (node : ProcessNode) : ProcessNode :=
  if node.retry_counter ≥ STABILITY_THRESHOLD then
    { node with status := .Ignored }
  else
    match env.cmdline node.pid with
    | some new_cmdline =>
      if hasDelim new_cmdline then
        if whitelist.contains new_cmdline then
          { node with process_name := new_cmdline, status := .Ignored }
        else
          { node with process_name := new_cmdline, status := .Monitored,
                      oom_score := (env.oom node.pid).getD 0 }
      else
        { node with retry_counter := node.retry_counter + 1 }
    | none => { node with is_alive := false }

/-- The `match node.status` in step 2 of `update` applied to an existing
node found in its bucket: `Ignored` is skipped, `Monitored` refreshes only
the oom score (`unwrap_or` keeps the previous score on a failed read),
`Pending` goes through `recheck_pending_node`. -/
def refreshNode (env : Env) (whitelist : List String) (n : ProcessNode) :
    ProcessNode :=
  match n.status with
  | .Ignored => n
  | .Monitored => { n with oom_score := (env.oom n.pid).getD n.oom_score }
  | .Pending => recheck_pending_node env whitelist n

/-- The marking pass of step 1 of `update`:
`if node.is_alive && !current_pids.contains(&node.pid) { node.is_alive = false }` -/
def markDead (current_pids : List Int) (n : ProcessNode) : ProcessNode :=
  if n.is_alive && !(current_pids.contains n.pid) then
    { n with is_alive := false }
  else n

/-- Step 1 of `update` on one bucket: mark the nodes whose pid left the
snapshot dead, then `bucket.retain(|node| node.is_alive)`. -/
def cleanBucket (current_pids : List Int) (bucket : List ProcessNode) :
    List ProcessNode :=
  (bucket.map (markDead current_pids)).filter (fun n => n.is_alive)

/-- `bucket.iter_mut().find(|n| n.pid == pid)` followed by the per-status
refresh: only the first node with the given pid is touched. -/
def refreshFirst (env : Env) (whitelist : List String) (pid : Int) :
    List ProcessNode → List ProcessNode
  | [] => []
  | n :: rest =>
    if n.pid == pid then refreshNode env whitelist n :: rest
    else n :: refreshFirst env whitelist pid rest

/-- Step 2 of `update` on the bucket of one snapshot pid: refresh the
existing node if present, otherwise attempt creation and push the new
node at the end of the bucket. -/
def step2Bucket (env : Env) (whitelist : List String) (pid : Int)
    (bucket : List ProcessNode) : List ProcessNode :=
  if bucket.any (fun n => n.pid == pid) then
    refreshFirst env whitelist pid bucket
  else
    match create_node env whitelist pid with
    | some new_node => bucket ++ [new_node]
    | none => bucket

/-- `fn update(&mut self, whitelist)`: one full polling cycle on the
snapshot `current_pids` (the result of `get_all_pids()`, a `HashSet`, so
each live pid occurs once; theorems assume `current_pids.Nodup`). -/
def update (env : Env) (whitelist : List String) (current_pids : List Int)
    (t : ProcessTable) : ProcessTable :=
  let cleaned := t.buckets.map (cleanBucket current_pids)
  ⟨current_pids.foldl
    (fun bs pid =>
      bs.set (hashPid pid)
        (step2Bucket env whitelist pid (bs.getD (hashPid pid) [])))
    cleaned⟩

/-- Looking a pid up in the table: the `find` on the pid's bucket. -/
def findNode (t : ProcessTable) (pid : Int) : Option ProcessNode :=
  (t.buckets.getD (hashPid pid) []).find? (fun n => n.pid == pid)

/-- All records of the table, bucket by bucket. -/
def allNodes (t : ProcessTable) : List ProcessNode := t.buckets.flatten

/-- How many records of the table carry the given pid. -/
def countPid (t : ProcessTable) (pid : Int) : Nat :=
  (allNodes t).countP (fun n => n.pid == pid)

/-- Structural well-formedness of the table, established by
`ProcessTable.new` and preserved by `update`: 128 buckets, every node
sits in the bucket of its hash, and no two nodes of a bucket share a
pid. -/
def WF (t : ProcessTable) : Prop :=
  t.buckets.length = HASH_SIZE ∧
  ∀ i, i < HASH_SIZE →
    (∀ n ∈ t.buckets.getD i [], hashPid n.pid = i) ∧
    ((t.buckets.getD i []).map (fun n => n.pid)).Nodup

instance : DecidablePred WF := fun t => by unfold WF; exact inferInstance

/-- The externals of `query_and_kill`: `ProcessTable::check_alive` (the
pre-kill liveness probe) and whether `kill(pid, SIGKILL)` succeeds. -/
structure KillEnv where
  check_alive : Int → Bool
  kill_ok : Int → Bool

/-- One bucket of the `retain` in `query_and_kill`.  Besides the
retained bucket it returns, in traversal order, the names pushed onto
`killed_list` and — as a ghost output recording exactly the points where
the source calls `kill(pid, SIGKILL)` — the pids that were sent the
termination signal. -/
def killBucket (kenv : KillEnv) (threshold : Int) :
    List ProcessNode → List ProcessNode × List String × List Int
  | [] => ([], [], [])
  | node :: rest =>
    let r := killBucket kenv threshold rest
    if node.is_alive = false then r
    else if node.status = .Monitored ∧ node.oom_score ≥ threshold then
      if kenv.check_alive node.pid then
        if kenv.kill_ok node.pid then
          (r.1, node.process_name :: r.2.1, node.pid :: r.2.2)
        else (node :: r.1, r.2.1, node.pid :: r.2.2)
      else (node :: r.1, r.2.1, r.2.2)
    else (node :: r.1, r.2.1, r.2.2)

/-- Result of one suppression pass: the retained table, the `killed_list`,
the ghost list of pids actually signalled, and whether
`write_log_to_file` was invoked (`!killed_list.is_empty()` and a log path
is configured). -/
structure KillResult where
  table : ProcessTable
  killed_list : List String
  signalled : List Int
  log_written : Bool
deriving Repr

/-- `fn query_and_kill(&mut self, threshold, log_path)` -/
def query_and_kill (kenv : KillEnv) (threshold : Int)
    (log_path : Option String) (t : ProcessTable) : KillResult :=
  let per := t.buckets.map (killBucket kenv threshold)
  { table := ⟨per.map (fun r => r.1)⟩
    killed_list := (per.map (fun r => r.2.1)).flatten
    signalled := (per.map (fun r => r.2.2)).flatten
    log_written :=
      !((per.map (fun r => r.2.1)).flatten.isEmpty) && log_path.isSome }

/-- A node the suppression pass retains: alive and not successfully
killed. -/
def keepNode (kenv : KillEnv) (threshold : Int) (n : ProcessNode) : Bool :=
  n.is_alive &&
    !(n.status == .Monitored && decide (n.oom_score ≥ threshold) &&
      kenv.check_alive n.pid && kenv.kill_ok n.pid)

/-- A node the suppression pass kills: alive, `Monitored`, over threshold,
passing the liveness probe, and the kill signal succeeds. -/
def killNode (kenv : KillEnv) (threshold : Int) (n : ProcessNode) : Bool :=
  n.is_alive && n.status == .Monitored && decide (n.oom_score ≥ threshold) &&
    kenv.check_alive n.pid && kenv.kill_ok n.pid

/-- A node for which the suppression pass reaches the `kill` call: alive,
`Monitored`, over threshold and passing the liveness probe. -/
def sigNode (kenv : KillEnv) (threshold : Int) (n : ProcessNode) : Bool :=
  n.is_alive && n.status == .Monitored && decide (n.oom_score ≥ threshold) &&
    kenv.check_alive n.pid

/-- Modelled from the spec: `isWhitelisted(name) -> bool`, "exact or
prefix match against externally loaded rules" (§6).  The source has no
such function — its whitelist test is the exact `HashSet::contains`
lookup inside `create_node` and `recheck_pending_node` — so this
definition follows the spec's words, to be compared with the source's
behaviour. -/
def isWhitelisted_spec (rules : List String) (name : String) : Bool :=
  rules.any (fun r => r == name || r.data.isPrefixOf name.data)

/-! ### Basic facts about the node operations -/

theorem recheck_pid (env : Env) (wl : List String) (n : ProcessNode) :
    (recheck_pending_node env wl n).pid = n.pid := by
  unfold recheck_pending_node
  split
  · rfl
  · split
    · split
      · split <;> rfl
      · rfl
    · rfl

theorem refreshNode_pid (env : Env) (wl : List String) (n : ProcessNode) :
    (refreshNode env wl n).pid = n.pid := by
  unfold refreshNode
  split <;> first | rfl | exact recheck_pid env wl n

theorem create_node_pid {env : Env} {wl : List String} {p : Int}
    {n : ProcessNode} (h : create_node env wl p = some n) : n.pid = p := by
  unfold create_node at h
  split at h
  · exact absurd h (by simp)
  · split at h <;> simp only [Option.some.injEq] at h <;> rw [← h]

theorem create_node_alive {env : Env} {wl : List String} {p : Int}
    {n : ProcessNode} (h : create_node env wl p = some n) : n.is_alive = true := by
  unfold create_node at h
  split at h
  · exact absurd h (by simp)
  · split at h <;> simp only [Option.some.injEq] at h <;> rw [← h]

theorem create_node_isSome (env : Env) (wl : List String) (p : Int) :
    (create_node env wl p).isSome = (env.uid p).isSome := by
  unfold create_node
  split <;> rename_i h <;> simp [h]
  split <;> simp

/-! ### List helpers -/

theorem getD_set_eq_ite {α : Type} (l : List α) (i : Nat) (x d : α) :
    (l.set i x).getD i d = if i < l.length then x else l.getD i d := by
  induction l generalizing i with
  | nil => cases i <;> simp
  | cons a l ih =>
    cases i with
    | zero => simp
    | succ j => simpa using ih j

theorem getD_set_ne {α : Type} (l : List α) {i j : Nat} (h : i ≠ j) (x d : α) :
    (l.set i x).getD j d = l.getD j d := by
  induction l generalizing i j with
  | nil => cases j <;> simp
  | cons a l ih =>
    cases i with
    | zero => cases j with
      | zero => exact absurd rfl h
      | succ j' => simp
    | succ i' => cases j with
      | zero => simp
      | succ j' => simpa using ih (fun hc => h (by rw [hc]))

theorem getD_eq_getElem {α : Type} (l : List α) (i : Nat) (d : α)
    (h : i < l.length) : l.getD i d = l[i] := by
  rw [List.getD_eq_getElem?_getD, List.getElem?_eq_getElem h, Option.getD_some]

theorem hashPid_lt (p : Int) : hashPid p < HASH_SIZE := by
  have h1 : 0 ≤ p % 128 := Int.emod_nonneg p (by decide)
  have h2 : p % 128 < 128 := Int.emod_lt_of_pos p (by decide)
  unfold hashPid HASH_SIZE
  omega

theorem contains_iff {l : List Int} {p : Int} : l.contains p = true ↔ p ∈ l := by
  simp [List.contains, List.elem_iff]

/-! ### Step 1 of `update`: cleaning the buckets -/

theorem cleanBucket_eq (pids : List Int) (b : List ProcessNode) :
    cleanBucket pids b
      = b.filter (fun n => n.is_alive && pids.contains n.pid) := by
  induction b with
  | nil => rfl
  | cons n rest ih =>
    unfold cleanBucket at *
    rw [List.map_cons, List.filter_cons, List.filter_cons, ih]
    by_cases ha : n.is_alive <;> by_cases hc : n.pid ∈ pids <;>
      simp [markDead, ha, hc]

theorem getD_map_clean (pids : List Int) (l : List (List ProcessNode))
    (i : Nat) :
    (l.map (cleanBucket pids)).getD i [] = cleanBucket pids (l.getD i []) := by
  induction l generalizing i with
  | nil => cases i <;> rfl
  | cons b l ih => cases i with
    | zero => simp
    | succ j => simpa using ih j

/-! ### `find?` characterizations -/

theorem find?_filter_nodup {p : Int} (b : List ProcessNode)
    (hnd : (b.map (fun n => n.pid)).Nodup) (q : ProcessNode → Bool) :
    (b.filter q).find? (fun n => n.pid == p)
      = match b.find? (fun n => n.pid == p) with
        | some n => if q n then some n else none
        | none => none := by
  induction b with
  | nil => rfl
  | cons n rest ih =>
    rw [List.filter_cons]
    by_cases hp : (n.pid == p) = true
    · have hpid : n.pid = p := by simpa using hp
      have hrest : ∀ m ∈ rest, (m.pid == p) = false := by
        intro m hm
        by_contra hc
        have hmp : m.pid = p := by simpa using hc
        have : n.pid ∈ rest.map (fun x => x.pid) :=
          hpid ▸ hmp ▸ List.mem_map_of_mem (fun x => x.pid) hm
        exact (List.nodup_cons.mp (by simpa using hnd)).1 this
      have hrn : rest.find? (fun x => x.pid == p) = none :=
        List.find?_eq_none.mpr (fun m hm => by simp [hrest m hm])
      by_cases hq : q n = true
      · simp [List.find?_cons, hp, hq]
      · have hfil : (List.filter q rest).find? (fun x => x.pid == p) = none :=
          List.find?_eq_none.mpr (fun m hm => by
            simp [hrest m (List.mem_of_mem_filter hm)])
        simp [List.find?_cons, hp, hq, hfil]
    · have ihr := ih (List.Nodup.of_cons (by simpa using hnd))
      by_cases hq : q n = true
      · simp only [hq, if_pos]
        simp [List.find?_cons, hp, ihr]
      · simp only [hq]
        rw [if_neg (by simp [hq]), ihr]
        simp [List.find?_cons, hp]

theorem find?_refreshFirst_ne (env : Env) (wl : List String) {q p : Int}
    (h : q ≠ p) (b : List ProcessNode) :
    (refreshFirst env wl q b).find? (fun n => n.pid == p)
      = b.find? (fun n => n.pid == p) := by
  induction b with
  | nil => rfl
  | cons n rest ih =>
    unfold refreshFirst
    by_cases hq : (n.pid == q) = true
    · have hpidq : n.pid = q := by simpa using hq
      have hnp : (n.pid == p) = false := by simp [hpidq, h]
      have hnp' : ((refreshNode env wl n).pid == p) = false := by
        simp [refreshNode_pid, hpidq, h]
      rw [if_pos hq]
      simp [List.find?_cons, hnp, hnp']
    · rw [if_neg hq]
      by_cases hp : (n.pid == p) = true
      · simp [List.find?_cons, hp]
      · simp [List.find?_cons, hp, ih]

theorem find?_refreshFirst_self (env : Env) (wl : List String) (p : Int)
    (b : List ProcessNode) :
    (refreshFirst env wl p b).find? (fun n => n.pid == p)
      = (b.find? (fun n => n.pid == p)).map (refreshNode env wl) := by
  induction b with
  | nil => rfl
  | cons n rest ih =>
    unfold refreshFirst
    by_cases hp : (n.pid == p) = true
    · have hrp : ((refreshNode env wl n).pid == p) = true := by
        simpa [refreshNode_pid] using hp
      rw [if_pos hp]
      simp [List.find?_cons, hp, hrp]
    · rw [if_neg hp]
      simp [List.find?_cons, hp, ih]

theorem any_eq_find?_isSome {α : Type} (pred : α → Bool) (l : List α) :
    l.any pred = (l.find? pred).isSome := by
  induction l with
  | nil => rfl
  | cons a l ih =>
    by_cases h : pred a = true
    · simp [List.find?_cons_of_pos _ h, h]
    · rw [List.find?_cons_of_neg _ h]
      simp only [List.any_cons, h, Bool.false_or]
      exact ih

theorem find?_step2_ne (env : Env) (wl : List String) {q p : Int} (h : q ≠ p)
    (b : List ProcessNode) :
    (step2Bucket env wl q b).find? (fun n => n.pid == p)
      = b.find? (fun n => n.pid == p) := by
  unfold step2Bucket
  by_cases ha : b.any (fun n => n.pid == q) = true
  · rw [if_pos ha]
    exact find?_refreshFirst_ne env wl h b
  · rw [if_neg ha]
    cases hc : create_node env wl q with
    | none => rfl
    | some node =>
      have hnp : (node.pid == p) = false := by
        simp [create_node_pid hc, h]
      rw [List.find?_append]
      simp [List.find?_cons, hnp]

theorem find?_step2_self (env : Env) (wl : List String) (p : Int)
    (b : List ProcessNode) :
    (step2Bucket env wl p b).find? (fun n => n.pid == p)
      = match b.find? (fun n => n.pid == p) with
        | some n => some (refreshNode env wl n)
        | none => create_node env wl p := by
  unfold step2Bucket
  rw [any_eq_find?_isSome]
  cases hf : b.find? (fun n => n.pid == p) with
  | some n =>
    rw [if_pos (by simp [hf])]
    rw [find?_refreshFirst_self, hf]
    rfl
  | none =>
    rw [if_neg (by simp [hf])]
    cases hc : create_node env wl p with
    | none => simpa using hf
    | some node =>
      have hnp : (node.pid == p) = true := by simp [create_node_pid hc]
      rw [List.find?_append, hf]
      simp [List.find?_cons, hnp]

/-! ### The fold of step 2 over the snapshot -/

/-- One step of the fold in step 2 of `update`. -/
def stepF (env : Env) (wl : List String) (bs : List (List ProcessNode))
    (pid : Int) : List (List ProcessNode) :=
  bs.set (hashPid pid)
    (step2Bucket env wl pid (bs.getD (hashPid pid) []))

/-- Pid lookup on a raw bucket list. -/
def findB (bs : List (List ProcessNode)) (p : Int) : Option ProcessNode :=
  (bs.getD (hashPid p) []).find? (fun n => n.pid == p)

theorem update_eq (env : Env) (wl : List String) (pids : List Int)
    (t : ProcessTable) :
    update env wl pids t
      = ⟨pids.foldl (stepF env wl) (t.buckets.map (cleanBucket pids))⟩ := rfl

theorem findNode_eq_findB (t : ProcessTable) (p : Int) :
    findNode t p = findB t.buckets p := rfl

theorem length_stepF (env : Env) (wl : List String)
    (bs : List (List ProcessNode)) (q : Int) :
    (stepF env wl bs q).length = bs.length := by
  unfold stepF; exact List.length_set bs _ _

theorem length_foldl_stepF (env : Env) (wl : List String)
    (qs : List Int) (bs : List (List ProcessNode)) :
    (qs.foldl (stepF env wl) bs).length = bs.length := by
  induction qs generalizing bs with
  | nil => rfl
  | cons q qs ih => rw [List.foldl_cons, ih, length_stepF]

theorem findB_stepF_ne (env : Env) (wl : List String) {q p : Int} (h : q ≠ p)
    (bs : List (List ProcessNode)) :
    findB (stepF env wl bs q) p = findB bs p := by
  unfold findB stepF
  by_cases hh : hashPid q = hashPid p
  · rw [hh, getD_set_eq_ite]
    split
    · exact find?_step2_ne env wl h _
    · rfl
  · rw [getD_set_ne bs hh]

theorem findB_stepF_self (env : Env) (wl : List String) (p : Int)
    (bs : List (List ProcessNode)) (hlen : hashPid p < bs.length) :
    findB (stepF env wl bs p) p
      = match findB bs p with
        | some n => some (refreshNode env wl n)
        | none => create_node env wl p := by
  unfold findB stepF
  rw [getD_set_eq_ite, if_pos hlen]
  exact find?_step2_self env wl p _

theorem findB_foldl_not_mem (env : Env) (wl : List String) (qs : List Int)
    (bs : List (List ProcessNode)) {p : Int} (hp : p ∉ qs) :
    findB (qs.foldl (stepF env wl) bs) p = findB bs p := by
  induction qs generalizing bs with
  | nil => rfl
  | cons q qs ih =>
    have hqp : q ≠ p := fun hc => hp (hc ▸ List.mem_cons_self q qs)
    rw [List.foldl_cons, ih _ (fun hc => hp (List.mem_cons_of_mem q hc)),
      findB_stepF_ne env wl hqp]

theorem findB_foldl_mem (env : Env) (wl : List String) (qs : List Int)
    (bs : List (List ProcessNode)) {p : Int} (hnd : qs.Nodup) (hp : p ∈ qs)
    (hlen : bs.length = HASH_SIZE) :
    findB (qs.foldl (stepF env wl) bs) p
      = match findB bs p with
        | some n => some (refreshNode env wl n)
        | none => create_node env wl p := by
  induction qs generalizing bs with
  | nil => cases hp
  | cons q qs ih =>
    rcases List.mem_cons.mp hp with rfl | hp'
    · have hnin : p ∉ qs := (List.nodup_cons.mp hnd).1
      rw [List.foldl_cons, findB_foldl_not_mem env wl qs _ hnin,
        findB_stepF_self env wl p bs (by rw [hlen]; exact hashPid_lt p)]
    · have hqp : q ≠ p := fun hc => (List.nodup_cons.mp hnd).1 (hc ▸ hp')
      rw [List.foldl_cons,
        ih _ (List.nodup_cons.mp hnd).2 hp' (by rw [length_stepF, hlen]),
        findB_stepF_ne env wl hqp]

/-! ### The master lemma: lookup after one update cycle -/

theorem findNode_update (env : Env) (wl : List String) {pids : List Int}
    (hnd : pids.Nodup) {t : ProcessTable} (hWF : WF t) (p : Int) :
    findNode (update env wl pids t) p
      = if p ∈ pids then
          match findNode t p with
          | some n =>
            if n.is_alive then some (refreshNode env wl n)
            else create_node env wl p
          | none => create_node env wl p
        else none := by
  obtain ⟨hlen, hbuckets⟩ := hWF
  rw [update_eq, findNode_eq_findB]
  have hclean : findB (t.buckets.map (cleanBucket pids)) p
      = match findNode t p with
        | some n => if n.is_alive && pids.contains n.pid then some n else none
        | none => none := by
    unfold findB
    rw [getD_map_clean, cleanBucket_eq]
    exact find?_filter_nodup _ ((hbuckets (hashPid p) (hashPid_lt p)).2) _
  by_cases hp : p ∈ pids
  · rw [if_pos hp]
    rw [findB_foldl_mem env wl pids _ hnd hp (by rw [List.length_map, hlen]),
      hclean]
    cases hf : findNode t p with
    | none => rfl
    | some n =>
      have hpidn : n.pid = p := by
        have := List.find?_some hf
        simpa using this
      by_cases ha : n.is_alive = true
      · simp [ha, hpidn, hp]
      · simp only [Bool.not_eq_true] at ha
        simp [ha, hpidn, hp]
  · rw [if_neg hp]
    rw [findB_foldl_not_mem env wl pids _ hp, hclean]
    cases hf : findNode t p with
    | none => rfl
    | some n =>
      have hpidn : n.pid = p := by
        have := List.find?_some hf
        simpa using this
      simp [hpidn, hp]

/-! ### `update` preserves well-formedness -/

theorem map_pid_refreshFirst (env : Env) (wl : List String) (q : Int)
    (b : List ProcessNode) :
    (refreshFirst env wl q b).map (fun n => n.pid)
      = b.map (fun n => n.pid) := by
  induction b with
  | nil => rfl
  | cons n rest ih =>
    unfold refreshFirst
    by_cases hq : (n.pid == q) = true
    · rw [if_pos hq]
      simp [refreshNode_pid]
    · rw [if_neg hq]
      simp [ih]

theorem WF_cleaned (pids : List Int) {t : ProcessTable} (hWF : WF t) :
    WF ⟨t.buckets.map (cleanBucket pids)⟩ := by
  obtain ⟨hlen, hb⟩ := hWF
  refine ⟨by rw [List.length_map]; exact hlen, ?_⟩
  intro i hi
  show (∀ n ∈ (t.buckets.map (cleanBucket pids)).getD i [], _) ∧ _
  rw [getD_map_clean, cleanBucket_eq]
  obtain ⟨hhash, hnd⟩ := hb i hi
  refine ⟨fun n hn => hhash n (List.mem_of_mem_filter hn), ?_⟩
  exact List.Nodup.sublist (List.Sublist.map _ (List.filter_sublist _)) hnd

theorem WF_stepF (env : Env) (wl : List String) (q : Int)
    {bs : List (List ProcessNode)} (h : WF ⟨bs⟩) : WF ⟨stepF env wl bs q⟩ := by
  obtain ⟨hlen, hb⟩ := h
  refine ⟨by rw [length_stepF]; exact hlen, ?_⟩
  intro i hi
  show (∀ n ∈ (stepF env wl bs q).getD i [], _) ∧ _
  by_cases hiq : hashPid q = i
  · subst hiq
    unfold stepF
    rw [getD_set_eq_ite, if_pos (by rw [hlen]; exact hashPid_lt q)]
    obtain ⟨hhash, hnd⟩ := hb (hashPid q) hi
    unfold step2Bucket
    split
    · constructor
      · intro n hn
        have hmm : n.pid ∈ (refreshFirst env wl q
            (bs.getD (hashPid q) [])).map (fun n => n.pid) :=
          List.mem_map_of_mem _ hn
        rw [map_pid_refreshFirst] at hmm
        obtain ⟨m, hm, hmp⟩ := List.mem_map.mp hmm
        rw [← hmp]; exact hhash m hm
      · rw [map_pid_refreshFirst]; exact hnd
    · rename_i hany
      cases hc : create_node env wl q with
      | none => exact ⟨hhash, hnd⟩
      | some node =>
        have hnode : node.pid = q := create_node_pid hc
        have hnotin : q ∉ (bs.getD (hashPid q) []).map (fun n => n.pid) := by
          intro hin
          obtain ⟨m, hm, hmp⟩ := List.mem_map.mp hin
          exact hany (by
            rw [List.any_eq_true]
            exact ⟨m, hm, by simp [hmp]⟩)
        constructor
        · intro n hn
          rcases List.mem_append.mp hn with h1 | h2
          · exact hhash n h1
          · have : n = node := by simpa using h2
            rw [this, hnode]
        · rw [List.map_append]
          simp only [List.map_cons, List.map_nil]
          rw [List.nodup_append]
          refine ⟨hnd, List.nodup_singleton _, ?_⟩
          intro a ha hb2
          have ha2 : a = node.pid := by simpa using hb2
          rw [ha2, hnode] at ha
          exact hnotin ha
  · unfold stepF
    rw [getD_set_ne bs hiq]
    exact hb i hi

theorem WF_foldl (env : Env) (wl : List String) (qs : List Int)
    {bs : List (List ProcessNode)} (h : WF ⟨bs⟩) :
    WF ⟨qs.foldl (stepF env wl) bs⟩ := by
  induction qs generalizing bs with
  | nil => exact h
  | cons q qs ih => exact ih (WF_stepF env wl q h)

theorem WF_update (env : Env) (wl : List String) (pids : List Int)
    {t : ProcessTable} (hWF : WF t) : WF (update env wl pids t) := by
  rw [update_eq]
  exact WF_foldl env wl pids (WF_cleaned pids hWF)

/-! ### Counting the records of one pid -/

theorem countP_bucket_zero {p : Int} {b : List ProcessNode} {i : Nat}
    (hb : ∀ n ∈ b, hashPid n.pid = i) (hne : i ≠ hashPid p) :
    b.countP (fun n => n.pid == p) = 0 :=
  List.countP_eq_zero.mpr (fun n hn hc =>
    hne (by rw [← hb n hn, show n.pid = p by simpa using hc]))

theorem countP_eq_one_of_find? {p : Int} {b : List ProcessNode}
    (hnd : (b.map (fun n => n.pid)).Nodup) :
    b.countP (fun n => n.pid == p)
      = if (b.find? (fun n => n.pid == p)).isSome then 1 else 0 := by
  induction b with
  | nil => rfl
  | cons n rest ih =>
    by_cases hp : (n.pid == p) = true
    · have hpid : n.pid = p := by simpa using hp
      have hnd' : (n.pid :: rest.map (fun x => x.pid)).Nodup := by
        simpa using hnd
      have hrest : rest.countP (fun x => x.pid == p) = 0 :=
        List.countP_eq_zero.mpr (fun m hm hc => by
          have hmp : m.pid = p := by simpa using hc
          have hmem : m.pid ∈ rest.map (fun x => x.pid) :=
            List.mem_map_of_mem (fun x => x.pid) hm
          rw [hmp, ← hpid] at hmem
          exact (List.nodup_cons.mp hnd').1 hmem)
      simp [List.countP_cons, List.find?_cons, hp, hrest]
    · have ihr := ih (List.Nodup.of_cons (by simpa using hnd))
      simp [List.countP_cons, List.find?_cons, hp, ihr]

theorem sum_map_countP (p : Int) (bs : List (List ProcessNode)) (k : Nat)
    (H : ∀ j, j < bs.length → ∀ n ∈ bs.getD j [], hashPid n.pid = k + j) :
    (bs.map (List.countP (fun n => n.pid == p))).sum
      = if k ≤ hashPid p then
          (bs.getD (hashPid p - k) []).countP (fun n => n.pid == p)
        else 0 := by
  induction bs generalizing k with
  | nil =>
    split <;> simp
  | cons b rest ih =>
    rw [List.map_cons, List.sum_cons]
    have hb : ∀ n ∈ b, hashPid n.pid = k := fun n hn => by
      simpa using H 0 (by simp) n hn
    have Hrest : ∀ j, j < rest.length → ∀ n ∈ rest.getD j [],
        hashPid n.pid = (k + 1) + j := by
      intro j hj n hn
      have := H (j + 1) (by simpa using Nat.succ_lt_succ hj)
        n (by simpa using hn)
      omega
    rw [ih (k + 1) Hrest]
    by_cases hk : hashPid p = k
    · subst hk
      rw [if_pos le_rfl, if_neg (by omega)]
      simp
    · by_cases hk2 : k ≤ hashPid p
      · rw [if_pos (by omega), if_pos hk2]
        rw [countP_bucket_zero hb (fun hc => hk hc.symm), Nat.zero_add]
        have hsub : hashPid p - k = (hashPid p - (k + 1)) + 1 := by omega
        rw [hsub, List.getD_cons_succ]
      · rw [if_neg (by omega), if_neg hk2]
        rw [countP_bucket_zero hb (fun hc => hk2 (hc ▸ le_rfl))]

theorem countPid_eq {t : ProcessTable} (hWF : WF t) (p : Int) :
    countPid t p = if (findNode t p).isSome then 1 else 0 := by
  obtain ⟨hlen, hb⟩ := hWF
  unfold countPid allNodes
  rw [List.countP_flatten]
  rw [sum_map_countP p t.buckets 0
    (fun j hj n hn => by simpa using (hb j (by rw [← hlen]; exact hj)).1 n hn)]
  rw [if_pos (Nat.zero_le _), Nat.sub_zero]
  exact countP_eq_one_of_find? (hb (hashPid p) (hashPid_lt p)).2

/-- Under `WF` the pid is an injective key over the whole table. -/
theorem WF_pid_inj {t : ProcessTable} (hWF : WF t) {n m : ProcessNode}
    (hn : n ∈ allNodes t) (hm : m ∈ allNodes t) (hpid : n.pid = m.pid) :
    n = m := by
  obtain ⟨hlen, hb⟩ := hWF
  obtain ⟨bn, hbn, hnbn⟩ := List.mem_flatten.mp hn
  obtain ⟨bm, hbm, hmbm⟩ := List.mem_flatten.mp hm
  obtain ⟨i, hi, hbi⟩ := List.mem_iff_getElem.mp hbn
  obtain ⟨j, hj, hbj⟩ := List.mem_iff_getElem.mp hbm
  have hgi : t.buckets.getD i [] = bn := by
    rw [getD_eq_getElem _ _ _ hi, hbi]
  have hgj : t.buckets.getD j [] = bm := by
    rw [getD_eq_getElem _ _ _ hj, hbj]
  have hi' : i < HASH_SIZE := hlen ▸ hi
  have hj' : j < HASH_SIZE := hlen ▸ hj
  have hin : hashPid n.pid = i := (hb i hi').1 n (hgi ▸ hnbn)
  have him : hashPid m.pid = j := (hb j hj').1 m (hgj ▸ hmbm)
  have hij : i = j := by rw [← hin, ← him, hpid]
  subst hij
  have hbnm : bn = bm := by rw [← hgi, ← hgj]
  subst hbnm
  exact List.inj_on_of_nodup_map (hgi ▸ (hb i hi').2) hnbn hmbm hpid

/-! ### Stability of refreshed records -/

theorem getD_idem {α : Type} (o : Option α) (d : α) :
    o.getD (o.getD d) = o.getD d := by cases o <;> rfl

/-- A record whose pressure score already reflects the environment, and
whose state is not `Pending`, is a fixed point of the per-cycle refresh. -/
theorem refreshNode_eq_self (env : Env) (wl : List String) {n : ProcessNode}
    (hs : n.status ≠ .Pending)
    (ho : n.status = .Monitored →
      (env.oom n.pid).getD n.oom_score = n.oom_score) :
    refreshNode env wl n = n := by
  obtain ⟨pid, uid, name, oom, status, rc, al⟩ := n
  cases status with
  | Pending => exact absurd rfl hs
  | Ignored => rfl
  | Monitored =>
    have h := ho rfl
    show ProcessNode.mk pid uid name ((env.oom pid).getD oom)
      .Monitored rc al = ProcessNode.mk pid uid name oom .Monitored rc al
    rw [show (env.oom pid).getD oom = oom from h]

/-- Explicit closed form of `create_node`. -/
theorem create_node_eq (env : Env) (wl : List String) (p : Int) :
    create_node env wl p
      = match env.uid p with
        | none => none
        | some u =>
          if u < 10000 then
            some ⟨p, u, "", -1000, .Ignored, 0, true⟩
          else if hasDelim ((env.cmdline p).getD "") then
            if wl.contains ((env.cmdline p).getD "") then
              some ⟨p, u, (env.cmdline p).getD "", (env.oom p).getD 0,
                    .Ignored, 0, true⟩
            else
              some ⟨p, u, (env.cmdline p).getD "", (env.oom p).getD 0,
                    .Monitored, 0, true⟩
          else
            some ⟨p, u, (env.cmdline p).getD "", (env.oom p).getD 0,
                  .Pending, 0, true⟩ := by
  unfold create_node
  cases env.uid p with
  | none => rfl
  | some u =>
    by_cases h10 : u < 10000
    · simp [h10]
    · by_cases hd : hasDelim ((env.cmdline p).getD "") = true
      · by_cases hwl : ((env.cmdline p).getD "") ∈ wl
        · simp [h10, hd, hwl]
        · simp [h10, hd, hwl]
      · simp [h10, hd]

/-- A node just produced by `create_node` is a fixed point of the refresh
as long as it is not `Pending`. -/
theorem create_refresh_self (env : Env) (wl : List String) {p : Int}
    {n : ProcessNode} (hc : create_node env wl p = some n)
    (hs : n.status ≠ .Pending) : refreshNode env wl n = n := by
  rw [create_node_eq] at hc
  split at hc
  · cases hc
  · split at hc
    · obtain rfl := Option.some.inj hc
      rfl
    · split at hc
      · split at hc
        · obtain rfl := Option.some.inj hc
          rfl
        · obtain rfl := Option.some.inj hc
          simp [refreshNode, getD_idem]
      · obtain rfl := Option.some.inj hc
        exact absurd rfl hs

/-- An alive node that has just been refreshed is, unless it ended the
cycle `Pending`, still alive and a fixed point of a second refresh with
the same environment. -/
theorem refresh_result_stable (env : Env) (wl : List String)
    {m : ProcessNode} (hal : m.is_alive = true)
    (hs : (refreshNode env wl m).status ≠ .Pending) :
    (refreshNode env wl m).is_alive = true ∧
      refreshNode env wl (refreshNode env wl m) = refreshNode env wl m := by
  obtain ⟨pid, uid, name, oom, status, rc, al⟩ := m
  simp only at hal
  subst hal
  cases status with
  | Ignored => exact ⟨rfl, rfl⟩
  | Monitored =>
    refine ⟨rfl, ?_⟩
    show ProcessNode.mk pid uid name
        ((env.oom pid).getD ((env.oom pid).getD oom)) .Monitored rc true
      = ProcessNode.mk pid uid name
          ((env.oom pid).getD oom) .Monitored rc true
    rw [getD_idem]
  | Pending =>
    by_cases hrc : rc ≥ STABILITY_THRESHOLD
    · refine ⟨?_, ?_⟩ <;> simp [refreshNode, recheck_pending_node, hrc]
    · cases hcm : env.cmdline pid with
      | none =>
        exfalso
        apply hs
        simp [refreshNode, recheck_pending_node, hrc, hcm]
      | some s =>
        by_cases hd : hasDelim s = true
        · by_cases hwl : s ∈ wl
          · refine ⟨?_, ?_⟩ <;>
              simp [refreshNode, recheck_pending_node, hrc, hcm, hd, hwl]
          · refine ⟨?_, ?_⟩ <;>
              simp [refreshNode, recheck_pending_node, hrc, hcm, hd, hwl,
                getD_idem]
        · exfalso
          apply hs
          simp [refreshNode, recheck_pending_node, hrc, hcm, hd]

/-- Any record that one update cycle leaves (or creates) in a
non-`Pending` state is alive and is a fixed point of the per-node refresh
with the same environment. -/
theorem findNode_update_stable (env : Env) (wl : List String)
    {pids : List Int} {t : ProcessTable} {p : Int} {n : ProcessNode}
    (hnd : pids.Nodup) (hWF : WF t)
    (h : findNode (update env wl pids t) p = some n)
    (hs : n.status ≠ .Pending) :
    p ∈ pids ∧ n.is_alive = true ∧ refreshNode env wl n = n := by
  rw [findNode_update env wl hnd hWF p] at h
  by_cases hp : p ∈ pids
  · rw [if_pos hp] at h
    refine ⟨hp, ?_⟩
    split at h
    · rename_i m heq
      split at h
      · rename_i ha
        obtain rfl := Option.some.inj h
        exact refresh_result_stable env wl ha hs
      · exact ⟨create_node_alive h, create_refresh_self env wl h hs⟩
    · exact ⟨create_node_alive h, create_refresh_self env wl h hs⟩
  · rw [if_neg hp] at h
    cases h

/-! ### Characterization of the suppression pass -/

theorem killBucket_eq (kenv : KillEnv) (threshold : Int)
    (b : List ProcessNode) :
    killBucket kenv threshold b
      = (b.filter (keepNode kenv threshold),
         (b.filter (killNode kenv threshold)).map (fun n => n.process_name),
         (b.filter (sigNode kenv threshold)).map (fun n => n.pid)) := by
  induction b with
  | nil => rfl
  | cons n rest ih =>
    unfold killBucket
    rw [ih]
    by_cases h1 : n.is_alive = false
    · rw [if_pos h1]
      simp [List.filter_cons, keepNode, killNode, sigNode, h1]
    · have h1' : n.is_alive = true := by simpa using h1
      rw [if_neg h1]
      by_cases hstat : n.status = .Monitored
      · by_cases hoom : n.oom_score ≥ threshold
        · rw [if_pos ⟨hstat, hoom⟩]
          by_cases hca : kenv.check_alive n.pid = true
          · rw [if_pos hca]
            by_cases hko : kenv.kill_ok n.pid = true
            · rw [if_pos hko]
              simp [List.filter_cons, keepNode, killNode, sigNode,
                h1', hstat, hoom, hca, hko]
            · rw [if_neg hko]
              have hko' : kenv.kill_ok n.pid = false := by simpa using hko
              simp [List.filter_cons, keepNode, killNode, sigNode,
                h1', hstat, hoom, hca, hko']
          · rw [if_neg hca]
            have hca' : kenv.check_alive n.pid = false := by simpa using hca
            simp [List.filter_cons, keepNode, killNode, sigNode,
              h1', hstat, hoom, hca']
        · rw [if_neg (fun hc => hoom hc.2)]
          simp [List.filter_cons, keepNode, killNode, sigNode,
            h1', hstat, hoom]
      · rw [if_neg (fun hc => hstat hc.1)]
        simp [List.filter_cons, keepNode, killNode, sigNode, h1', hstat]

theorem qk_table (kenv : KillEnv) (threshold : Int) (lp : Option String)
    (t : ProcessTable) :
    allNodes (query_and_kill kenv threshold lp t).table
      = (allNodes t).filter (keepNode kenv threshold) := by
  unfold query_and_kill allNodes
  simp only [List.map_map]
  have hmap : (t.buckets.map
        ((fun r => r.1) ∘ killBucket kenv threshold))
      = t.buckets.map (fun b => b.filter (keepNode kenv threshold)) := by
    apply List.map_congr_left
    intro b _
    simp [Function.comp, killBucket_eq]
  rw [hmap, ← List.filter_flatten]

theorem flatten_map_filter_map {α β : Type} (q : α → Bool) (f : α → β)
    (L : List (List α)) :
    (L.map (fun b => (b.filter q).map f)).flatten
      = ((L.flatten).filter q).map f := by
  induction L with
  | nil => rfl
  | cons b L ih => simp [List.filter_append, ih]

theorem qk_killed (kenv : KillEnv) (threshold : Int) (lp : Option String)
    (t : ProcessTable) :
    (query_and_kill kenv threshold lp t).killed_list
      = ((allNodes t).filter (killNode kenv threshold)).map
          (fun n => n.process_name) := by
  unfold query_and_kill allNodes
  simp only [List.map_map]
  have hmap : (t.buckets.map
        ((fun r => r.2.1) ∘ killBucket kenv threshold))
      = t.buckets.map (fun b =>
          (b.filter (killNode kenv threshold)).map (fun n => n.process_name))
      := by
    apply List.map_congr_left
    intro b _
    simp [Function.comp, killBucket_eq]
  rw [hmap, flatten_map_filter_map]

theorem qk_sig (kenv : KillEnv) (threshold : Int) (lp : Option String)
    (t : ProcessTable) :
    (query_and_kill kenv threshold lp t).signalled
      = ((allNodes t).filter (sigNode kenv threshold)).map (fun n => n.pid)
      := by
  unfold query_and_kill allNodes
  simp only [List.map_map]
  have hmap : (t.buckets.map
        ((fun r => r.2.2) ∘ killBucket kenv threshold))
      = t.buckets.map (fun b =>
          (b.filter (sigNode kenv threshold)).map (fun n => n.pid)) := by
    apply List.map_congr_left
    intro b _
    simp [Function.comp, killBucket_eq]
  rw [hmap, flatten_map_filter_map]

theorem qk_log (kenv : KillEnv) (threshold : Int) (lp : Option String)
    (t : ProcessTable) :
    (query_and_kill kenv threshold lp t).log_written
      = (!(query_and_kill kenv threshold lp t).killed_list.isEmpty
          && lp.isSome) := rfl

/-! ### Corollaries of the master lemma -/

theorem findNode_update_existing (env : Env) (wl : List String)
    {pids : List Int} {t : ProcessTable} {p : Int} {n : ProcessNode}
    (hnd : pids.Nodup) (hWF : WF t) (hp : p ∈ pids)
    (hfind : findNode t p = some n) (halive : n.is_alive = true) :
    findNode (update env wl pids t) p = some (refreshNode env wl n) := by
  rw [findNode_update env wl hnd hWF p, if_pos hp, hfind]
  simp [halive]

theorem findNode_update_existing_dead (env : Env) (wl : List String)
    {pids : List Int} {t : ProcessTable} {p : Int} {n : ProcessNode}
    (hnd : pids.Nodup) (hWF : WF t) (hp : p ∈ pids)
    (hfind : findNode t p = some n) (hdead : n.is_alive = false) :
    findNode (update env wl pids t) p = create_node env wl p := by
  rw [findNode_update env wl hnd hWF p, if_pos hp, hfind]
  simp [hdead]

theorem findNode_update_new (env : Env) (wl : List String)
    {pids : List Int} {t : ProcessTable} {p : Int}
    (hnd : pids.Nodup) (hWF : WF t) (hp : p ∈ pids)
    (hfind : findNode t p = none) :
    findNode (update env wl pids t) p = create_node env wl p := by
  rw [findNode_update env wl hnd hWF p, if_pos hp, hfind]

theorem findNode_update_absent (env : Env) (wl : List String)
    {pids : List Int} {t : ProcessTable} {p : Int}
    (hnd : pids.Nodup) (hWF : WF t) (hp : p ∉ pids) :
    findNode (update env wl pids t) p = none := by
  rw [findNode_update env wl hnd hWF p, if_neg hp]

/-! ### Claim C1 -/

/-- Claim C1, refuted at a concrete input: with owner 10000 and a
display name that never carries the delimiter, pid 1 stays in the
snapshot on every cycle, yet after eight update cycles the record is
`Ignored` (`Inert`), not `Pending` (`Ambiguous`): the seventh cycle left
it `Pending` with its retry counter at the stability threshold, and the
eighth promoted it without a name read, contradicting that an ambiguous
record remains `Ambiguous` until a delimiter-bearing name is observed. -/
theorem c1_counterexample :
    (findNode ((update
        ⟨fun _ => some 10000, fun _ => some 5, fun _ => some "com.app"⟩
        [] [1])^[7] ProcessTable.new) 1).map (fun n => n.status)
      = some .Pending
    ∧ (findNode ((update
        ⟨fun _ => some 10000, fun _ => some 5, fun _ => some "com.app"⟩
        [] [1])^[8] ProcessTable.new) 1).map (fun n => n.status)
      = some .Ignored
    ∧ hasDelim "com.app" = false
    ∧ NodeStatus.Ignored ≠ NodeStatus.Pending := by
  refine ⟨by decide, by decide, by decide, by decide⟩

/-- C1 as amended: an `Ambiguous` (`Pending`) record whose pid stays in
the snapshot has its display name re-read and, if the name still lacks
the delimiter, keeps its state (only the retry counter advances) — but
only while the retry counter is below `STABILITY_THRESHOLD`; once the
counter has reached the threshold, the next cycle promotes the record to
`Ignored` (`Inert`) without reading any attribute (the result is the same
for every environment). -/
theorem c1_amended_stability (env : Env) (wl : List String)
    (pids : List Int) (t : ProcessTable) (p : Int) (n : ProcessNode)
    (s : String) (hnd : pids.Nodup) (hWF : WF t) (hp : p ∈ pids)
    (hfind : findNode t p = some n) (halive : n.is_alive = true)
    (hstat : n.status = .Pending) (hcmd : env.cmdline p = some s)
    (hdelim : hasDelim s = false) :
    (n.retry_counter < STABILITY_THRESHOLD →
      findNode (update env wl pids t) p
        = some { n with retry_counter := n.retry_counter + 1 })
    ∧ (STABILITY_THRESHOLD ≤ n.retry_counter →
      ∀ env2 : Env, ∀ wl2 : List String,
        findNode (update env2 wl2 pids t) p
          = some { n with status := .Ignored }) := by
  have hpid : n.pid = p := by simpa using List.find?_some hfind
  obtain ⟨npid, nuid, nname, noom, nst, nrc, nal⟩ := n
  have hst : nst = .Pending := hstat
  have hal : nal = true := halive
  have hpd : npid = p := hpid
  subst hst hal hpd
  constructor
  · intro hlt
    rw [findNode_update_existing env wl hnd hWF hp hfind halive]
    have hge : ¬(nrc ≥ STABILITY_THRESHOLD) := by
      have hlt2 : nrc < STABILITY_THRESHOLD := hlt
      omega
    simp [refreshNode, recheck_pending_node, hge, hcmd, hdelim]
  · intro hge env2 wl2
    rw [findNode_update_existing env2 wl2 hnd hWF hp hfind halive]
    simp [refreshNode, recheck_pending_node, hge]

/-- Witness for `c1_amended_stability` at a concrete table. -/
theorem c1_amended_stability_witness :
    findNode (update
        ⟨fun _ => some 10000, fun _ => some 5, fun _ => some "com.app"⟩
        [] [1]
        ⟨(List.replicate 128 ([] : List ProcessNode)).set 1
          [⟨1, 10000, "com.app", 5, .Pending, 0, true⟩]⟩) 1
      = some ⟨1, 10000, "com.app", 5, .Pending, 1, true⟩ :=
  (c1_amended_stability
    ⟨fun _ => some 10000, fun _ => some 5, fun _ => some "com.app"⟩
    [] [1]
    ⟨(List.replicate 128 ([] : List ProcessNode)).set 1
      [⟨1, 10000, "com.app", 5, .Pending, 0, true⟩]⟩
    1 ⟨1, 10000, "com.app", 5, .Pending, 0, true⟩ "com.app"
    (by decide) (by decide) (by decide) (by decide) (by decide) (by decide)
    (by decide) (by decide)).1 (by decide)

/-! ### Claim C2 -/

/-- Claim C2, refuted at a concrete input: a `Pending` record with
previous score 7 whose name read returns a delimiter-bearing name while
the pressure-score read fails ends the cycle `Monitored` with score 0 —
it does not keep its previous state or its previous score. -/
theorem c2_counterexample :
    (Env.oom ⟨fun _ => some 10000, fun _ => none, fun _ => some "a:b"⟩ 1
      = none)
    ∧ (findNode (update
        ⟨fun _ => some 10000, fun _ => none, fun _ => some "a:b"⟩ [] [1]
        ⟨(List.replicate 128 ([] : List ProcessNode)).set 1
          [⟨1, 10000, "x", 7, .Pending, 0, true⟩]⟩) 1).map
        (fun n => (n.status, n.oom_score))
      = some (.Monitored, 0)
    ∧ ((0 : Int) ≠ 7 ∧ NodeStatus.Monitored ≠ NodeStatus.Pending) := by
  refine ⟨rfl, by decide, by decide⟩

/-- C2 as amended: a failed owner-identity read at creation still means
no record is created; a failed pressure-score read on a `Monitored`
record keeps the previous score; but a failed display-name read on a
`Pending` record marks the record dead (it keeps its state and score only
until the next cycle removes it), and a failed score read while a
`Pending` record resolves to `Monitored` sets the score to the fallback
0 rather than keeping the previous score. -/
theorem c2_amended_error_handling (env : Env) (wl : List String)
    (pids : List Int) (t : ProcessTable) (p : Int) (n : ProcessNode)
    (s : String) (hnd : pids.Nodup) (hWF : WF t) (hp : p ∈ pids) :
    (findNode t p = none → env.uid p = none →
      findNode (update env wl pids t) p = none)
    ∧ (findNode t p = some n → n.is_alive = true → n.status = .Pending →
      n.retry_counter < STABILITY_THRESHOLD → env.cmdline p = none →
      findNode (update env wl pids t) p = some { n with is_alive := false })
    ∧ (findNode t p = some n → n.is_alive = true → n.status = .Monitored →
      env.oom p = none →
      findNode (update env wl pids t) p = some n)
    ∧ (findNode t p = some n → n.is_alive = true → n.status = .Pending →
      n.retry_counter < STABILITY_THRESHOLD → env.cmdline p = some s →
      hasDelim s = true → wl.contains s = false → env.oom p = none →
      findNode (update env wl pids t) p
        = some { n with process_name := s, status := .Monitored,
                        oom_score := 0 }) := by
  refine ⟨?_, ?_, ?_, ?_⟩
  · intro hf hu
    rw [findNode_update_new env wl hnd hWF hp hf, create_node_eq, hu]
  · intro hf hal hstat hlt hcm
    have hpid : n.pid = p := by simpa using List.find?_some hf
    obtain ⟨npid, nuid, nname, noom, nst, nrc, nal⟩ := n
    have hst : nst = .Pending := hstat
    have hl : nal = true := hal
    have hpd : npid = p := hpid
    subst hst hl hpd
    rw [findNode_update_existing env wl hnd hWF hp hf hal]
    have hge : ¬(nrc ≥ STABILITY_THRESHOLD) := by
      have hlt2 : nrc < STABILITY_THRESHOLD := hlt
      omega
    simp [refreshNode, recheck_pending_node, hge, hcm]
  · intro hf hal hstat hoom
    have hpid : n.pid = p := by simpa using List.find?_some hf
    obtain ⟨npid, nuid, nname, noom, nst, nrc, nal⟩ := n
    have hst : nst = .Monitored := hstat
    have hl : nal = true := hal
    have hpd : npid = p := hpid
    subst hst hl hpd
    rw [findNode_update_existing env wl hnd hWF hp hf hal]
    simp [refreshNode, hoom]
  · intro hf hal hstat hlt hcm hd hwl hoom
    have hpid : n.pid = p := by simpa using List.find?_some hf
    obtain ⟨npid, nuid, nname, noom, nst, nrc, nal⟩ := n
    have hst : nst = .Pending := hstat
    have hl : nal = true := hal
    have hpd : npid = p := hpid
    subst hst hl hpd
    rw [findNode_update_existing env wl hnd hWF hp hf hal]
    have hge : ¬(nrc ≥ STABILITY_THRESHOLD) := by
      have hlt2 : nrc < STABILITY_THRESHOLD := hlt
      omega
    have hwl2 : s ∉ wl := by
      intro hin
      rw [show wl.contains s = true from by
        simp [List.contains, List.elem_iff, hin]] at hwl
      cases hwl
    simp [refreshNode, recheck_pending_node, hge, hcm, hd, hwl2, hoom]

/-- Witness for `c2_amended_error_handling`: its third conjunct (failed
score read on a `Monitored` record) at a concrete table. -/
theorem c2_amended_error_handling_witness :
    findNode (update
        ⟨fun _ => some 10000, fun _ => none, fun _ => some "a:b"⟩ [] [1]
        ⟨(List.replicate 128 ([] : List ProcessNode)).set 1
          [⟨1, 10000, "a:b", 7, .Monitored, 0, true⟩]⟩) 1
      = some ⟨1, 10000, "a:b", 7, .Monitored, 0, true⟩ :=
  (c2_amended_error_handling
    ⟨fun _ => some 10000, fun _ => none, fun _ => some "a:b"⟩ [] [1]
    ⟨(List.replicate 128 ([] : List ProcessNode)).set 1
      [⟨1, 10000, "a:b", 7, .Monitored, 0, true⟩]⟩
    1 ⟨1, 10000, "a:b", 7, .Monitored, 0, true⟩ "a:b"
    (by decide) (by decide) (by decide)).2.2.1
    (by decide) (by decide) (by decide) (by decide)

/-! ### Claim C3 -/

/-- Claim C3, refuted at a concrete input: starting from a table holding
a `Pending` record with retry counter 5, with an unchanged snapshot and
unchanged read results, one update cycle leaves the record `Pending`
(counter 6) while a second identical cycle promotes it to `Ignored` — so
running the engine twice does not leave every record's state unchanged. -/
theorem c3_counterexample :
    (findNode (update
        ⟨fun _ => some 10000, fun _ => some 5, fun _ => some "a"⟩ [] [1]
        ⟨(List.replicate 128 ([] : List ProcessNode)).set 1
          [⟨1, 10000, "a", 5, .Pending, 5, true⟩]⟩) 1).map (fun n => n.status)
      = some .Pending
    ∧ (findNode (update
        ⟨fun _ => some 10000, fun _ => some 5, fun _ => some "a"⟩ [] [1]
        (update
          ⟨fun _ => some 10000, fun _ => some 5, fun _ => some "a"⟩ [] [1]
          ⟨(List.replicate 128 ([] : List ProcessNode)).set 1
            [⟨1, 10000, "a", 5, .Pending, 5, true⟩]⟩)) 1).map
        (fun n => n.status)
      = some .Ignored
    ∧ NodeStatus.Ignored ≠ NodeStatus.Pending := by
  refine ⟨by decide, by decide, by decide⟩

/-- C3 as amended: with an unchanged snapshot and unchanged read results,
every record that the first update cycle leaves (or creates) in a
non-`Ambiguous` state is left entirely unchanged (state, score, name) by
the second cycle; only `Ambiguous` (`Pending`) records can differ between
the two runs (retry-counter advance, stability promotion to `Inert`, or
dead-marking after a failed name read). -/
theorem c3_amended_idempotent (env : Env) (wl : List String)
    (pids : List Int) (t : ProcessTable) (p : Int) (n : ProcessNode)
    (hnd : pids.Nodup) (hWF : WF t)
    (h1 : findNode (update env wl pids t) p = some n)
    (hs : n.status ≠ .Pending) :
    findNode (update env wl pids (update env wl pids t)) p = some n := by
  obtain ⟨hp, hal, hfix⟩ := findNode_update_stable env wl hnd hWF h1 hs
  rw [findNode_update_existing env wl hnd (WF_update env wl pids hWF) hp h1
    hal, hfix]

/-- Witness for `c3_amended_idempotent` at a concrete table. -/
theorem c3_amended_idempotent_witness :
    findNode (update
        ⟨fun _ => some 10000, fun _ => some 900, fun _ => some "a:b"⟩ [] [1]
        (update
          ⟨fun _ => some 10000, fun _ => some 900, fun _ => some "a:b"⟩
          [] [1] ProcessTable.new)) 1
      = some ⟨1, 10000, "a:b", 900, .Monitored, 0, true⟩ :=
  c3_amended_idempotent
    ⟨fun _ => some 10000, fun _ => some 900, fun _ => some "a:b"⟩ [] [1]
    ProcessTable.new 1 ⟨1, 10000, "a:b", 900, .Monitored, 0, true⟩
    (by decide) (by decide) (by decide) (by decide)

/-! ### Claim C4 -/

/-- Claim C4, refuted at a concrete input: the rule `"com.app"` matches
the delimiter-bearing name `"com.app:worker"` as a prefix, so the
spec-modelled whitelist test accepts it, but the code's whitelist test is
the exact `HashSet::contains` lookup, which rejects it, and the record is
created `Monitored` (`Reclaimable`), not `Ignored` (`Inert`). -/
theorem c4_counterexample :
    isWhitelisted_spec ["com.app"] "com.app:worker" = true
    ∧ (["com.app"].contains "com.app:worker") = false
    ∧ (create_node
        ⟨fun _ => some 10000, fun _ => some 5, fun _ => some "com.app:worker"⟩
        ["com.app"] 1).map (fun n => n.status) = some .Monitored
    ∧ NodeStatus.Monitored ≠ NodeStatus.Ignored := by
  refine ⟨by decide, by decide, by decide, by decide⟩

/-- C4 as amended: the whitelist test used during classification is an
exact set-membership lookup (no prefix matching); at both call sites a
delimiter-bearing observed name resolves the record to `Ignored`
(`Inert`) exactly when the name is literally one of the configured rules,
and to `Monitored` (`Reclaimable`) otherwise. -/
theorem c4_amended_whitelist_exact (env : Env) (wl : List String) (p : Int)
    (u : Nat) (s : String) (node : ProcessNode) :
    (env.uid p = some u → ¬u < 10000 → env.cmdline p = some s →
      hasDelim s = true →
      (create_node env wl p).map (fun n => n.status)
        = some (if wl.contains s then NodeStatus.Ignored
                else NodeStatus.Monitored))
    ∧ (node.status = .Pending →
      node.retry_counter < STABILITY_THRESHOLD →
      env.cmdline node.pid = some s → hasDelim s = true →
      (recheck_pending_node env wl node).status
        = (if wl.contains s then NodeStatus.Ignored
           else NodeStatus.Monitored)) := by
  constructor
  · intro hu h10 hcm hd
    rw [create_node_eq, hu]
    by_cases hwl : s ∈ wl
    · simp [h10, hcm, hd, hwl]
    · simp [h10, hcm, hd, hwl]
  · intro hstat hlt hcm hd
    have hge : ¬(node.retry_counter ≥ STABILITY_THRESHOLD) := by omega
    unfold recheck_pending_node
    by_cases hwl : s ∈ wl
    · simp [hge, hcm, hd, hwl]
    · simp [hge, hcm, hd, hwl]

/-- Witness for `c4_amended_whitelist_exact`: an exactly whitelisted
delimiter-bearing name is created `Ignored`. -/
theorem c4_amended_whitelist_exact_witness :
    (create_node
        ⟨fun _ => some 10000, fun _ => some 5, fun _ => some "a:b"⟩
        ["a:b"] 1).map (fun n => n.status) = some .Ignored :=
  (c4_amended_whitelist_exact
    ⟨fun _ => some 10000, fun _ => some 5, fun _ => some "a:b"⟩
    ["a:b"] 1 10000 "a:b" ⟨1, 10000, "x", 0, .Pending, 0, true⟩).1
    (by decide) (by decide) (by decide) (by decide)

/-! ### Claim C5 -/

/-- C5: after an update cycle, every pid of the snapshot has exactly one
record in the table, except that a pid whose owner-identity read failed
(and which had no live record) is simply absent; and every pid absent
from the snapshot has no record at all. -/
theorem c5_table_reflects_snapshot (env : Env) (wl : List String)
    (pids : List Int) (t : ProcessTable) (hnd : pids.Nodup) (hWF : WF t) :
    (∀ p ∈ pids,
      countPid (update env wl pids t) p = 1
      ∨ (env.uid p = none ∧ countPid (update env wl pids t) p = 0))
    ∧ ∀ p : Int, p ∉ pids → countPid (update env wl pids t) p = 0 := by
  have hWF2 := WF_update env wl pids hWF
  constructor
  · intro p hp
    rw [countPid_eq hWF2 p, findNode_update env wl hnd hWF p, if_pos hp]
    cases hf : findNode t p with
    | some n =>
      by_cases ha : n.is_alive = true
      · left; simp [ha]
      · cases hu : env.uid p with
        | some u =>
          left
          have hsome : (create_node env wl p).isSome = true := by
            rw [create_node_isSome, hu]; rfl
          simp [ha, hsome]
        | none =>
          right
          have hnone : (create_node env wl p).isSome = false := by
            rw [create_node_isSome, hu]; rfl
          refine ⟨rfl, ?_⟩
          simp [ha, hnone]
    | none =>
      cases hu : env.uid p with
      | some u =>
        left
        have hsome : (create_node env wl p).isSome = true := by
          rw [create_node_isSome, hu]; rfl
        simp [hsome]
      | none =>
        right
        have hnone : (create_node env wl p).isSome = false := by
          rw [create_node_isSome, hu]; rfl
        refine ⟨rfl, ?_⟩
        simp [hnone]
  · intro p hpn
    rw [countPid_eq hWF2 p, findNode_update env wl hnd hWF p, if_neg hpn]
    rfl

/-- Witness for `c5_table_reflects_snapshot` at a concrete table. -/
theorem c5_table_reflects_snapshot_witness :
    countPid (update
        ⟨fun _ => some 10000, fun _ => some 5, fun _ => some "a"⟩ []
        [1] ProcessTable.new) 1 = 1
    ∨ ((⟨fun _ => some 10000, fun _ => some 5, fun _ => some "a"⟩ : Env).uid 1
        = none
      ∧ countPid (update
          ⟨fun _ => some 10000, fun _ => some 5, fun _ => some "a"⟩ []
          [1] ProcessTable.new) 1 = 0) :=
  (c5_table_reflects_snapshot
    ⟨fun _ => some 10000, fun _ => some 5, fun _ => some "a"⟩ [] [1]
    ProcessTable.new (by decide) (by decide)).1 1 (by decide)

/-! ### Claim C6 -/

/-- C6: a pid whose owner identity reads below 10000 at creation gets a
record created directly in the `Ignored` (`Inert`) state with the
sentinel score `-1000` and an empty name; and an alive `Ignored` record
is returned unchanged by every later update cycle whatever the
environment and whitelist (in particular no name or score read can
affect it). -/
theorem c6_owner_floor (env : Env) (wl : List String) (pids : List Int)
    (t : ProcessTable) (p : Int) (u : Nat) (n : ProcessNode)
    (hnd : pids.Nodup) (hWF : WF t) (hp : p ∈ pids) :
    (findNode t p = none → env.uid p = some u → u < 10000 →
      findNode (update env wl pids t) p
        = some ⟨p, u, "", -1000, .Ignored, 0, true⟩)
    ∧ (findNode t p = some n → n.status = .Ignored → n.is_alive = true →
      ∀ env2 : Env, ∀ wl2 : List String,
        findNode (update env2 wl2 pids t) p = some n) := by
  constructor
  · intro hf hu h10
    rw [findNode_update_new env wl hnd hWF hp hf, create_node_eq, hu]
    simp [h10]
  · intro hf hstat hal env2 wl2
    rw [findNode_update_existing env2 wl2 hnd hWF hp hf hal]
    obtain ⟨npid, nuid, nname, noom, nst, nrc, nal⟩ := n
    have hst : nst = .Ignored := hstat
    subst hst
    rfl

/-- Witness for `c6_owner_floor`: creation of a protected-owner record at
a concrete table. -/
theorem c6_owner_floor_witness :
    findNode (update
        ⟨fun _ => some 0, fun _ => some 5, fun _ => some "a"⟩ [] [1]
        ProcessTable.new) 1
      = some ⟨1, 0, "", -1000, .Ignored, 0, true⟩ :=
  (c6_owner_floor ⟨fun _ => some 0, fun _ => some 5, fun _ => some "a"⟩
    [] [1] ProcessTable.new 1 0 ⟨1, 0, "", -1000, .Ignored, 0, true⟩
    (by decide) (by decide) (by decide)).1
    (by decide) (by decide) (by decide)

/-! ### Claim C7 -/

/-- C7: in a suppression pass, a termination signal is sent only for
records that are `Monitored` (`Reclaimable`) with pressure score at least
the threshold; no `Ignored`, `Pending`, or under-threshold record ever
has the kill signal sent for its pid. -/
theorem c7_threshold_gating (kenv : KillEnv) (threshold : Int)
    (lp : Option String) (t : ProcessTable) (hWF : WF t) :
    (∀ q ∈ (query_and_kill kenv threshold lp t).signalled,
      ∃ n ∈ allNodes t, n.pid = q ∧ n.status = .Monitored
        ∧ n.oom_score ≥ threshold)
    ∧ ∀ n ∈ allNodes t,
        ¬(n.status = .Monitored ∧ n.oom_score ≥ threshold) →
        n.pid ∉ (query_and_kill kenv threshold lp t).signalled := by
  constructor
  · intro q hq
    rw [qk_sig] at hq
    obtain ⟨n, hn, rfl⟩ := List.mem_map.mp hq
    have hmem := List.mem_filter.mp hn
    have hsig := hmem.2
    simp only [sigNode, Bool.and_eq_true, beq_iff_eq, decide_eq_true_eq]
      at hsig
    exact ⟨n, hmem.1, rfl, hsig.1.1.2, hsig.1.2⟩
  · intro n hn hcond hin
    rw [qk_sig] at hin
    obtain ⟨m, hm, hpid⟩ := List.mem_map.mp hin
    have hmem := List.mem_filter.mp hm
    have heq : m = n := WF_pid_inj hWF hmem.1 hn hpid
    subst heq
    have hsig := hmem.2
    simp only [sigNode, Bool.and_eq_true, beq_iff_eq, decide_eq_true_eq]
      at hsig
    exact hcond ⟨hsig.1.1.2, hsig.1.2⟩

/-- Witness for `c7_threshold_gating` at a concrete table with one
over-threshold `Monitored` record. -/
theorem c7_threshold_gating_witness :
    ∃ n ∈ allNodes ⟨(List.replicate 128 ([] : List ProcessNode)).set 1
        [⟨1, 10000, "a:b", 900, .Monitored, 0, true⟩]⟩,
      n.pid = 1 ∧ n.status = .Monitored ∧ n.oom_score ≥ (800 : Int) :=
  (c7_threshold_gating ⟨fun _ => true, fun _ => true⟩ 800 none
    ⟨(List.replicate 128 ([] : List ProcessNode)).set 1
      [⟨1, 10000, "a:b", 900, .Monitored, 0, true⟩]⟩
    (by decide)).1 1 (by decide)

/-! ### Claim C8 -/

/-- C8: in a suppression pass every successfully killed record is removed
from the table within that pass and its display name is appended to the
killed list (which is exactly the in-order list of names of the killed
records), and the log sink is invoked only when the killed list is
non-empty. -/
theorem c8_kill_removes_and_logs (kenv : KillEnv) (threshold : Int)
    (lp : Option String) (t : ProcessTable) :
    ((query_and_kill kenv threshold lp t).killed_list
      = ((allNodes t).filter (killNode kenv threshold)).map
          (fun n => n.process_name))
    ∧ (∀ n ∈ allNodes t, killNode kenv threshold n = true →
        n ∉ allNodes (query_and_kill kenv threshold lp t).table
        ∧ n.process_name ∈ (query_and_kill kenv threshold lp t).killed_list)
    ∧ ((query_and_kill kenv threshold lp t).log_written = true →
        (query_and_kill kenv threshold lp t).killed_list ≠ []) := by
  refine ⟨qk_killed kenv threshold lp t, ?_, ?_⟩
  · intro n hn hkill
    constructor
    · rw [qk_table]
      intro hmem
      have hkeep := (List.mem_filter.mp hmem).2
      have hA : (n.status == .Monitored && decide (n.oom_score ≥ threshold)
          && kenv.check_alive n.pid && kenv.kill_ok n.pid) = true := by
        simp only [killNode, Bool.and_eq_true] at hkill
        simp only [Bool.and_eq_true]
        exact ⟨⟨⟨hkill.1.1.1.2, hkill.1.1.2⟩, hkill.1.2⟩, hkill.2⟩
      unfold keepNode at hkeep
      rw [hA] at hkeep
      simp at hkeep
    · rw [qk_killed]
      exact List.mem_map_of_mem _ (List.mem_filter.mpr ⟨hn, hkill⟩)
  · intro hlog hempty
    rw [qk_log, hempty] at hlog
    simp at hlog

/-- Witness for `c8_kill_removes_and_logs` at a concrete table. -/
theorem c8_kill_removes_and_logs_witness :
    ⟨1, 10000, "a:b", 900, .Monitored, 0, true⟩ ∉
      allNodes (query_and_kill ⟨fun _ => true, fun _ => true⟩ 800 none
        ⟨[[⟨1, 10000, "a:b", 900, .Monitored, 0, true⟩]]⟩).table
    ∧ "a:b" ∈ (query_and_kill ⟨fun _ => true, fun _ => true⟩ 800 none
        ⟨[[⟨1, 10000, "a:b", 900, .Monitored, 0, true⟩]]⟩).killed_list :=
  (c8_kill_removes_and_logs ⟨fun _ => true, fun _ => true⟩ 800 none
    ⟨[[⟨1, 10000, "a:b", 900, .Monitored, 0, true⟩]]⟩).2.1
    ⟨1, 10000, "a:b", 900, .Monitored, 0, true⟩ (by decide) (by decide)

/-! ### Claim C9 -/

/-- C9: a selected record whose termination attempt fails — the liveness
probe fails or the kill signal is rejected — is left in place in the
table as the same unchanged record, it is not a killed record, and the
killed list consists exactly of the names of the records whose kill
succeeded. -/
theorem c9_failed_kill_left_in_place (kenv : KillEnv) (threshold : Int)
    (lp : Option String) (t : ProcessTable) (n : ProcessNode)
    (hn : n ∈ allNodes t) (hal : n.is_alive = true)
    (hstat : n.status = .Monitored) (hoom : n.oom_score ≥ threshold)
    (hfail : ¬(kenv.check_alive n.pid = true ∧ kenv.kill_ok n.pid = true)) :
    n ∈ allNodes (query_and_kill kenv threshold lp t).table
    ∧ killNode kenv threshold n = false
    ∧ (query_and_kill kenv threshold lp t).killed_list
      = ((allNodes t).filter (killNode kenv threshold)).map
          (fun n => n.process_name) := by
  have hkn : killNode kenv threshold n = false := by
    rw [Bool.eq_false_iff]
    intro hk
    simp only [killNode, Bool.and_eq_true, beq_iff_eq, decide_eq_true_eq]
      at hk
    exact hfail ⟨hk.1.2, hk.2⟩
  refine ⟨?_, hkn, qk_killed kenv threshold lp t⟩
  rw [qk_table]
  refine List.mem_filter.mpr ⟨hn, ?_⟩
  simp only [keepNode, Bool.and_eq_true, Bool.not_eq_true']
  refine ⟨hal, ?_⟩
  rw [Bool.eq_false_iff]
  intro hk
  simp only [Bool.and_eq_true, beq_iff_eq, decide_eq_true_eq] at hk
  exact hfail ⟨hk.1.2, hk.2⟩

/-- Witness for `c9_failed_kill_left_in_place`: the kill signal is
rejected, the record stays. -/
theorem c9_failed_kill_left_in_place_witness :
    ⟨1, 10000, "a:b", 900, .Monitored, 0, true⟩ ∈
      allNodes (query_and_kill ⟨fun _ => true, fun _ => false⟩ 800 none
        ⟨[[⟨1, 10000, "a:b", 900, .Monitored, 0, true⟩]]⟩).table
    ∧ killNode ⟨fun _ => true, fun _ => false⟩ 800
        ⟨1, 10000, "a:b", 900, .Monitored, 0, true⟩ = false
    ∧ (query_and_kill ⟨fun _ => true, fun _ => false⟩ 800 none
        ⟨[[⟨1, 10000, "a:b", 900, .Monitored, 0, true⟩]]⟩).killed_list
      = ((allNodes ⟨[[⟨1, 10000, "a:b", 900, .Monitored, 0, true⟩]]⟩).filter
          (killNode ⟨fun _ => true, fun _ => false⟩ 800)).map
          (fun n => n.process_name) :=
  c9_failed_kill_left_in_place ⟨fun _ => true, fun _ => false⟩ 800 none
    ⟨[[⟨1, 10000, "a:b", 900, .Monitored, 0, true⟩]]⟩
    ⟨1, 10000, "a:b", 900, .Monitored, 0, true⟩
    (by decide) (by decide) (by decide) (by decide) (by decide)

/-! ### Claim C10 -/

/-- C10: a suppression pass removes every record whose alive flag is
already cleared, sends no termination signal for its pid, and does not
put its name on the killed list (the killed list is exactly the names of
the alive records whose kill succeeded, and a dead record is not one of
them). -/
theorem c10_dead_nodes_cleanup (kenv : KillEnv) (threshold : Int)
    (lp : Option String) (t : ProcessTable) (n : ProcessNode)
    (hWF : WF t) (hn : n ∈ allNodes t) (hdead : n.is_alive = false) :
    n ∉ allNodes (query_and_kill kenv threshold lp t).table
    ∧ n.pid ∉ (query_and_kill kenv threshold lp t).signalled
    ∧ killNode kenv threshold n = false
    ∧ (query_and_kill kenv threshold lp t).killed_list
      = ((allNodes t).filter (killNode kenv threshold)).map
          (fun n => n.process_name) := by
  refine ⟨?_, ?_, by simp [killNode, hdead],
    qk_killed kenv threshold lp t⟩
  · rw [qk_table]
    intro hmem
    have hkeep := (List.mem_filter.mp hmem).2
    simp only [keepNode, Bool.and_eq_true] at hkeep
    rw [hdead] at hkeep
    exact absurd hkeep.1 (by decide)
  · intro hin
    rw [qk_sig] at hin
    obtain ⟨m, hm, hpid⟩ := List.mem_map.mp hin
    have hmem := List.mem_filter.mp hm
    have heq : m = n := WF_pid_inj hWF hmem.1 hn hpid
    subst heq
    have hsig := hmem.2
    simp only [sigNode, Bool.and_eq_true] at hsig
    rw [hdead] at hsig
    exact absurd hsig.1.1.1 (by decide)

/-- Witness for `c10_dead_nodes_cleanup` at a concrete table with one
dead record. -/
theorem c10_dead_nodes_cleanup_witness :
    ⟨1, 10000, "a:b", 900, .Monitored, 0, false⟩ ∉
      allNodes (query_and_kill ⟨fun _ => true, fun _ => true⟩ 800 none
        ⟨(List.replicate 128 ([] : List ProcessNode)).set 1
          [⟨1, 10000, "a:b", 900, .Monitored, 0, false⟩]⟩).table
    ∧ (1 : Int) ∉ (query_and_kill ⟨fun _ => true, fun _ => true⟩ 800 none
        ⟨(List.replicate 128 ([] : List ProcessNode)).set 1
          [⟨1, 10000, "a:b", 900, .Monitored, 0, false⟩]⟩).signalled
    ∧ killNode ⟨fun _ => true, fun _ => true⟩ 800
        ⟨1, 10000, "a:b", 900, .Monitored, 0, false⟩ = false
    ∧ (query_and_kill ⟨fun _ => true, fun _ => true⟩ 800 none
        ⟨(List.replicate 128 ([] : List ProcessNode)).set 1
          [⟨1, 10000, "a:b", 900, .Monitored, 0, false⟩]⟩).killed_list
      = ((allNodes ⟨(List.replicate 128 ([] : List ProcessNode)).set 1
            [⟨1, 10000, "a:b", 900, .Monitored, 0, false⟩]⟩).filter
          (killNode ⟨fun _ => true, fun _ => true⟩ 800)).map
          (fun n => n.process_name) :=
  c10_dead_nodes_cleanup ⟨fun _ => true, fun _ => true⟩ 800 none
    ⟨(List.replicate 128 ([] : List ProcessNode)).set 1
      [⟨1, 10000, "a:b", 900, .Monitored, 0, false⟩]⟩
    ⟨1, 10000, "a:b", 900, .Monitored, 0, false⟩
    (by decide) (by decide) (by decide)

end MemCleaner
